import Mathlib

/- Verification of the loadgen configuration layer (package loadgencfg,
   src/internal/loadgen/config/config.go): the event-rate parser RateFlag,
   the header flag parser, and the flag/environment resolution performed by
   init and setFlagsFromEnv.

   Machine integers are modelled as Nat/Int with the explicit bounds the Go
   code checks (uint64 overflow guards inside time.ParseDuration, the int64
   range inside strconv.Atoi).  Strings are handled through their character
   lists; the Go code inspects single bytes only to compare them against
   ASCII characters, and for those tests byte-level and character-level
   inspection coincide. -/

namespace LoadgenCfg

/-- Go byte test `c >= '0' && c <= '9'` as it appears in config.go:56 and in
    the strconv / time standard-library code. -/
def goIsDigit (c : Char) : Bool := decide (48 ≤ c.toNat) && decide (c.toNat ≤ 57)

/-- Loop guard of the unit scan in time.ParseDuration: the next character is
    a decimal digit or a period. -/
def isDigitDot (c : Char) : Bool := c == '.' || goIsDigit c

/-- Core of Go strings.Cut for a one-byte separator: split at the first
    occurrence, none when the separator does not occur. -/
def cutList (sep : Char) : List Char → Option (List Char × List Char)
  | [] => none
  | c :: rest =>
    if c = sep then some ([], rest)
    else
      match cutList sep rest with
      | none => none
      | some (x, y) => some (c :: x, y)

/-- Go strings.Cut: (before, after, found); when the separator is absent Go
    returns (s, "", false).  Both separators used by config.go ("/" and "=")
    are single bytes. -/
def goCut (s : String) (sep : Char) : String × String × Bool :=
  match cutList sep s.data with
  | some (b, a) => (⟨b⟩, ⟨a⟩, true)
  | none => (s, "", false)

/-- Decimal accumulator loop of strconv.ParseInt. -/
def digitsVal (l : List Char) : Nat := l.foldl (fun a c => a * 10 + (c.toNat - 48)) 0

/-- Go strconv.Atoi on characters: an optional sign, then a non-empty run of
    decimal digits, with the int64 range check; none models a non-nil
    error. -/
def goAtoiList : List Char → Option Int
  | [] => none
  | c :: rest =>
    let neg := c == '-'
    let digits := if c == '-' || c == '+' then rest else c :: rest
    if digits.isEmpty then none
    else if digits.all goIsDigit then
      let n := digitsVal digits
      if neg then
        if n ≤ 2 ^ 63 then some (-(n : Int)) else none
      else
        if n ≤ 2 ^ 63 - 1 then some ((n : Int)) else none
    else none

/-- Go strconv.Atoi. -/
def goAtoi (s : String) : Option Int := goAtoiList s.data

/-- leadingInt from time/format.go: consume leading digits into x with the
    uint64 overflow guards; none models errLeadingInt. -/
def leadingInt : Nat → List Char → Option (Nat × List Char)
  | x, [] => some (x, [])
  | x, c :: s =>
    if goIsDigit c then
      if x > 2 ^ 63 / 10 then none
      else
        let x2 := x * 10 + (c.toNat - 48)
        if x2 > 2 ^ 63 then none
        else leadingInt x2 s
    else some (x, c :: s)

/-- leadingFraction from time/format.go: consume fraction digits; scale is
    the float64 power of ten kept by Go, which is exact as a Nat for every
    value reachable here (at most 10^19). -/
def leadingFraction : Nat → Nat → Bool → List Char → Nat × Nat × List Char
  | x, scale, _, [] => (x, scale, [])
  | x, scale, ovf, c :: s =>
    if goIsDigit c then
      if ovf then leadingFraction x scale ovf s
      else if x > (2 ^ 63 - 1) / 10 then leadingFraction x scale true s
      else
        let y := x * 10 + (c.toNat - 48)
        if y > 2 ^ 63 then leadingFraction x scale true s
        else leadingFraction y (scale * 10) false s
    else (x, scale, c :: s)

/-- unitMap from time/format.go, in nanoseconds. -/
def durUnit (u : List Char) : Option Nat :=
  if u = ['n', 's'] then some 1
  else if u = ['u', 's'] then some 1000
  else if u = ['µ', 's'] then some 1000
  else if u = ['μ', 's'] then some 1000
  else if u = ['m', 's'] then some 1000000
  else if u = ['s'] then some 1000000000
  else if u = ['m'] then some 60000000000
  else if u = ['h'] then some 3600000000000
  else none

/-- Fraction phase of one ParseDuration loop iteration:
    (f, scale, remainder, post). -/
def durFrac (s1 : List Char) : Nat × Nat × List Char × Bool :=
  match s1 with
  | '.' :: s2 =>
    let r := leadingFraction 0 1 false s2
    (r.1, r.2.1, r.2.2, decide (r.2.2.length ≠ s2.length))
  | _ => (0, 1, s1, false)

/-- One iteration of the time.ParseDuration loop body on a non-empty
    remainder: the nanosecond contribution of one (number, unit) group and
    the remaining characters.  Go computes the fractional contribution as
    uint64(float64(f) * (float64(unit)/scale)); it is modelled here by the
    exact f * unit / scale, and the two agree on every input whose fraction
    arithmetic is exact in float64 — no theorem below depends on an input
    where they could differ. -/
def durStep (cs : List Char) : Option (Nat × List Char) :=
  match cs with
  | [] => none
  | c :: s0 =>
    if !isDigitDot c then none
    else
      match leadingInt 0 (c :: s0) with
      | none => none
      | some (v, s1) =>
        let pre : Bool := decide (s1.length ≠ (c :: s0).length)
        let fr := durFrac s1
        let f := fr.1
        let scale := fr.2.1
        let s3 := fr.2.2.1
        let post := fr.2.2.2
        if !pre && !post then none
        else
          let u := s3.takeWhile (fun ch => !isDigitDot ch)
          let s4 := s3.dropWhile (fun ch => !isDigitDot ch)
          if u.isEmpty then none
          else
            match durUnit u with
            | none => none
            | some unit =>
              if v > 2 ^ 63 / unit then none
              else
                let v1 := v * unit
                let v2 := if 0 < f then v1 + f * unit / scale else v1
                if 0 < f ∧ v2 > 2 ^ 63 then none
                else some (v2, s4)

/-- The ParseDuration accumulation loop.  The fuel bounds the number of
    iterations and never expires: every iteration that recurses has consumed
    at least the (non-empty) unit token, so s.length iterations always
    suffice and the empty-list case fires first. -/
def durLoop : Nat → Nat → List Char → Option Nat
  | _, d, [] => some d
  | 0, _, _ => none
  | fuel + 1, d, c :: s0 =>
    match durStep (c :: s0) with
    | none => none
    | some (v2, s4) =>
      if d + v2 > 2 ^ 63 then none
      else durLoop fuel (d + v2) s4

/-- time.ParseDuration on characters; the result is int64 nanoseconds, none
    models a non-nil error. -/
def parseDuration (s : List Char) : Option Int :=
  let sg : Bool × List Char :=
    match s with
    | [] => (false, [])
    | c :: rest =>
      if c = '-' then (true, rest)
      else if c = '+' then (false, rest)
      else (false, c :: rest)
  let neg := sg.1
  let s1 := sg.2
  if s1 = ['0'] then some 0
  else if s1 = [] then none
  else
    match durLoop s1.length 0 s1 with
    | none => none
    | some d =>
      if neg then some (-(d : Int))
      else if d > 2 ^ 63 - 1 then none
      else some ((d : Int))

/-- Decimal digit characters of n, most significant first: the division loop
    of strconv's integer formatting.  The fuel n+1 always suffices because
    the argument drops to n/10 each round. -/
def natDigitsAux : Nat → Nat → List Char
  | 0, _ => []
  | fuel + 1, n =>
    if n < 10 then [Char.ofNat (48 + n)]
    else natDigitsAux fuel (n / 10) ++ [Char.ofNat (48 + n % 10)]

/-- Decimal representation of a natural number, as characters. -/
def natDigits (n : Nat) : List Char := natDigitsAux (n + 1) n

/-- Decimal representation of a natural number, as a string (fmt %d for a
    non-negative Go int). -/
def natDigitsStr (n : Nat) : String := ⟨natDigits n⟩

/-- Inner loop of fmtFrac from time/time.go: peel prec digits off v,
    emitting them once a nonzero digit has been seen (trailing zeros are
    omitted).  Returns (digits, v / 10^prec, printed anything). -/
def fmtFracCore : Nat → Nat → List Char → Bool → List Char × Nat × Bool
  | 0, v, acc, pr => (acc, v, pr)
  | i + 1, v, acc, pr =>
    let digit := v % 10
    let pr2 := pr || decide (digit ≠ 0)
    let acc2 := if pr2 then Char.ofNat (digit + 48) :: acc else acc
    fmtFracCore i (v / 10) acc2 pr2

/-- fmtFrac from time/time.go: the fraction text (with its leading period,
    or empty when the fraction is zero) and the remaining integer part. -/
def fmtFrac (v prec : Nat) : List Char × Nat :=
  let r := fmtFracCore prec v [] false
  ((if r.2.2 then '.' :: r.1 else r.1), r.2.1)

/-- fmtInt from time/time.go: plain decimal, "0" for zero. -/
def fmtIntChars (v : Nat) : List Char := if v = 0 then ['0'] else natDigits v

/-- time.Duration.String from time/time.go, used by RateFlag.String through
    Sprintf %s. -/
def durationString (d : Int) : String :=
  let neg := decide (d < 0)
  let u := d.natAbs
  let body :=
    if u < 1000000000 then
      if u = 0 then ['0', 's']
      else if u < 1000 then
        fmtIntChars u ++ ['n', 's']
      else if u < 1000000 then
        let r := fmtFrac u 3
        fmtIntChars r.2 ++ r.1 ++ ['µ', 's']
      else
        let r := fmtFrac u 6
        fmtIntChars r.2 ++ r.1 ++ ['m', 's']
    else
      let r := fmtFrac u 9
      let secs := fmtIntChars (r.2 % 60) ++ r.1 ++ ['s']
      let u2 := r.2 / 60
      if u2 = 0 then secs
      else
        let mins := fmtIntChars (u2 % 60) ++ ['m']
        let u3 := u2 / 60
        if u3 = 0 then mins ++ secs
        else fmtIntChars u3 ++ ['h'] ++ mins ++ secs
  ⟨if neg then '-' :: body else body⟩

/-- The parse errors produced by the configuration layer; each constructor
    carries the string interpolated into the Go error message. -/
inductive ConfigErr where
  | invalidRate (s : String)
  | invalidBurst (s : String)
  | invalidInterval (s : String)
  | nonPositiveInterval (s : String)
  | invalidHeader (s : String)
  | invalidBool (s : String)
  | invalidURL (s : String)
deriving DecidableEq

/-- RateFlag (config.go:36-39): Burst is a Go int, Interval a time.Duration
    (int64 nanoseconds). -/
structure RateFlag where
  Burst : Int
  Interval : Int
deriving DecidableEq

/-- Sprintf %d for a Go int. -/
def intRepr (i : Int) : List Char :=
  if i < 0 then '-' :: natDigits i.natAbs else natDigits i.toNat

/-- RateFlag.String (config.go:41-43). -/
def RateFlag.string (f : RateFlag) : String :=
  ⟨intRepr f.Burst⟩ ++ "/" ++ durationString f.Interval

/-- The unit-shorthand defaulting of config.go:56-58: when the first byte of
    the interval text is not a decimal digit, the literal digit 1 is
    prepended.  (The byte inspected by Go is the first byte of the first
    character; it is a digit exactly when that character is.) -/
def prepOne (after : String) : String :=
  match after.data with
  | ch :: _ => if goIsDigit ch then after else (⟨'1' :: after.data⟩ : String)
  | [] => after

/-- Tail of RateFlag.Set once the burst has parsed (config.go:56-69):
    the unit-shorthand digit check, the duration parse, the positivity
    check, and the final store into the receiver. -/
def setInterval (f : RateFlag) (burst : Int) (after : String) : RateFlag × Option ConfigErr :=
  match parseDuration (prepOne after).data with
  | none => (f, some (.invalidInterval (prepOne after)))
  | some interval =>
    if interval ≤ 0 then (f, some (.nonPositiveInterval (prepOne after)))
    else ({ Burst := burst, Interval := interval }, none)

/-- RateFlag.Set (config.go:45-70).  Returns the updated receiver together
    with the returned error; every error path leaves the receiver as it
    was, exactly as the Go method assigns the fields only on line 67-68. -/
def RateFlag.set (f : RateFlag) (s : String) : RateFlag × Option ConfigErr :=
  let r := goCut s '/'
  if r.2.2 = false ∨ r.1 = "" ∨ r.2.1 = "" then (f, some (.invalidRate s))
  else
    match goAtoi r.1 with
    | none => (f, some (.invalidBurst r.1))
    | some burst => setInterval f burst r.2.1

/-- Go map assignment m[k] = v on an association-list model: overwrite every
    entry carrying k (there is at most one) or append a new entry; keys stay
    unique and a duplicate assignment keeps the last value. -/
def mapInsert (m : List (String × String)) (k v : String) : List (String × String) :=
  if m.any (fun p => p.1 == k) then m.map (fun p => if p.1 == k then (k, v) else p)
  else m ++ [(k, v)]

/-- The header flag function (config.go:99-112).  The Go map is created
    lazily on first use; in this list model the make-on-first-use branch is
    a no-op. -/
def headerSet (m : List (String × String)) (s : String) :
    List (String × String) × Option ConfigErr :=
  match goCut s '=' with
  | (_, _, false) => (m, some (.invalidHeader s))
  | (k, v, true) => (mapInsert m k v, none)

/-- Go strconv.ParseBool. -/
def parseBool (s : String) : Option Bool :=
  if s == "1" || s == "t" || s == "T" || s == "true" || s == "TRUE" || s == "True" then some true
  else if s == "0" || s == "f" || s == "F" || s == "false" || s == "FALSE" || s == "False" then
    some false
  else none

/- net/url.Parse, as called by the server flag closure (config.go:79).  The
   model keeps the exact success/failure behaviour of url.Parse (for a
   general URL, viaRequest = false); a successfully parsed *url.URL is
   represented by the raw accepted string, since no code in this layer reads
   the URL's components.  All byte-level scans below split only at ASCII
   delimiters, which never occur inside a multi-byte UTF-8 character, so the
   character-level model coincides with Go's byte-level one. -/

/-- ASCII letter test from net/url's getScheme and shouldEscape. -/
def isAlphaChar (c : Char) : Bool :=
  (decide (97 ≤ c.toNat) && decide (c.toNat ≤ 122))
    || (decide (65 ≤ c.toNat) && decide (c.toNat ≤ 90))

/-- net/url ishex. -/
def ishex (c : Char) : Bool :=
  goIsDigit c || (decide (97 ≤ c.toNat) && decide (c.toNat ≤ 102))
    || (decide (65 ≤ c.toNat) && decide (c.toNat ≤ 70))

/-- net/url unhex (0 on a non-hex byte, as in Go). -/
def unhex (c : Char) : Nat :=
  if 48 ≤ c.toNat ∧ c.toNat ≤ 57 then c.toNat - 48
  else if 97 ≤ c.toNat ∧ c.toNat ≤ 102 then c.toNat - 97 + 10
  else if 65 ≤ c.toNat ∧ c.toNat ≤ 70 then c.toNat - 65 + 10
  else 0

/-- net/url stringContainsCTLByte: any byte below 0x20 or equal to 0x7f.
    Bytes of a multi-byte character are at least 0x80 and never match. -/
def stringContainsCTL (l : List Char) : Bool :=
  l.any fun c => decide (c.toNat < 32) || c.toNat == 127

/-- shouldEscape from net/url for the encodeHost and encodeZone modes:
    everything but alphanumerics, the sub-delims plus : [ ] < > and the
    double quote (code 34), and the marks - _ . ~ must be escaped.  Bytes at
    and above 0x80 always report true, exactly as in Go. -/
def shouldEscapeHost (c : Char) : Bool :=
  !(isAlphaChar c || goIsDigit c ||
    c == '!' || c == '$' || c == '&' || c.toNat == 39 || c == '(' || c == ')' ||
    c == '*' || c == '+' || c == ',' || c == ';' || c == '=' || c == ':' ||
    c == '[' || c == ']' || c == '<' || c == '>' || c.toNat == 34 ||
    c == '-' || c == '_' || c == '.' || c == '~')

/-- The unescape modes of net/url that url.Parse reaches. -/
inductive EncMode where
  | host
  | zone
  | path
  | userPassword
  | fragment
deriving DecidableEq

/-- Success predicate of net/url unescape: every % is followed by two hex
    digits; in the host a %-escape may only encode a non-ASCII byte (first
    hex digit at least 8) or be %25; in a zone an escape other than %25 and
    %20 must not encode a host-escapable byte; and a bare host or zone byte
    below 0x80 must not require escaping.  Code 39 is the single quote. -/
def unescapeOk (mode : EncMode) : List Char → Bool
  | [] => true
  | '%' :: h1 :: h2 :: rest =>
    if !(ishex h1 && ishex h2) then false
    else if mode = .host ∧ unhex h1 < 8 ∧ ¬(h1 = '2' ∧ h2 = '5') then false
    else if mode = .zone ∧ ¬(h1 = '2' ∧ h2 = '5') ∧ unhex h1 * 16 + unhex h2 ≠ 32
        ∧ shouldEscapeHost (Char.ofNat (unhex h1 * 16 + unhex h2)) = true then false
    else unescapeOk mode rest
  | ['%'] => false
  | ['%', _] => false
  | c :: rest =>
    if (mode = .host ∨ mode = .zone) ∧ c.toNat < 128 ∧ shouldEscapeHost c = true then false
    else unescapeOk mode rest

/-- Text before the first occurrence of sep (the whole text when sep is
    absent), as produced by strings.Cut and strings.Index splits. -/
def cutBefore (sep : Char) (l : List Char) : List Char :=
  match cutList sep l with
  | some (b, _) => b
  | none => l

/-- Split at the last occurrence of sep (strings.LastIndex):
    l = before ++ sep :: after with sep not in after. -/
def lastSplit (sep : Char) (l : List Char) : Option (List Char × List Char) :=
  match cutList sep l.reverse with
  | none => none
  | some (ra, rb) => some (rb.reverse, ra.reverse)

/-- Split at the first occurrence of the three-character sequence %25
    (strings.Index(s, "%25")): l = pre ++ zonePart with zonePart starting
    at that occurrence. -/
def splitSub25 : List Char → Option (List Char × List Char)
  | '%' :: '2' :: '5' :: rest => some ([], '%' :: '2' :: '5' :: rest)
  | c :: rest =>
    match splitSub25 rest with
    | none => none
    | some (pre, zp) => some (c :: pre, zp)
  | [] => none

/-- net/url validOptionalPort: empty, or a colon followed by decimal
    digits. -/
def validOptionalPort (colonPort : List Char) : Bool :=
  match colonPort with
  | [] => true
  | c :: rest => c == ':' && rest.all goIsDigit

/-- net/url validUserinfo over the runes of the userinfo text. -/
def validUserinfo (l : List Char) : Bool :=
  l.all fun r =>
    isAlphaChar r || goIsDigit r ||
    r == '-' || r == '.' || r == '_' || r == ':' || r == '~' || r == '!' || r == '$' ||
    r == '&' || r.toNat == 39 || r == '(' || r == ')' || r == '*' || r == '+' ||
    r == ',' || r == ';' || r == '=' || r == '%' || r == '@'

/-- net/url parseHost: bracketed IPv6 hosts need a closing bracket, a valid
    optional port and, when a %25 zone is present, host/zone/host unescapes
    of the three pieces; other hosts need a numeric text after the last
    colon; both end in an encodeHost unescape of the (remaining) host. -/
def parseHostOk (host : List Char) : Bool :=
  if host.head? = some '[' then
    match lastSplit ']' host with
    | none => false
    | some (hIn, colonPort) =>
      validOptionalPort colonPort &&
      (match splitSub25 hIn with
       | some (pre, zonePart) =>
         unescapeOk .host pre && unescapeOk .zone zonePart
           && unescapeOk .host (']' :: colonPort)
       | none => unescapeOk .host host)
  else
    (match lastSplit ':' host with
     | some (_, port) => port.all goIsDigit
     | none => true)
    && unescapeOk .host host

/-- net/url parseAuthority: split at the last @; the host must parse, and a
    userinfo part must pass validUserinfo and the user/password
    unescapes. -/
def authorityOk (authority : List Char) : Bool :=
  match lastSplit '@' authority with
  | none => parseHostOk authority
  | some (userinfo, hostpart) =>
    parseHostOk hostpart && validUserinfo userinfo &&
    (match cutList ':' userinfo with
     | none => unescapeOk .userPassword userinfo
     | some (un, pw) => unescapeOk .userPassword un && unescapeOk .userPassword pw)

/-- net/url getScheme: letters, then letters, digits or + - . up to a colon
    give (scheme, rest); a leading colon is the missing-protocol-scheme
    error (none); any other character means no scheme at all. -/
def getSchemeAux (orig : List Char) : Nat → List Char → Option (List Char × List Char)
  | _, [] => some ([], orig)
  | i, c :: rest =>
    if isAlphaChar c then getSchemeAux orig (i + 1) rest
    else if goIsDigit c || c == '+' || c == '-' || c == '.' then
      if i = 0 then some ([], orig) else getSchemeAux orig (i + 1) rest
    else if c == ':' then
      if i = 0 then none else some (orig.take i, rest)
    else some ([], orig)

def getScheme (l : List Char) : Option (List Char × List Char) :=
  getSchemeAux l 0 l

/-- The body of net/url parse (viaRequest = false) on the pre-fragment
    text: control-character check, "*", scheme split, query removal (the
    raw query is never validated), the opaque early return, the
    colon-in-first-segment check for schemeless relative paths, authority
    and host validation for a // prefix, and the path unescape. -/
def parseOk (u : List Char) : Bool :=
  if stringContainsCTL u then false
  else if u = ['*'] then true
  else
    match getScheme u with
    | none => false
    | some (scheme, rest0) =>
      let rest := cutBefore '?' rest0
      match rest with
      | '/' :: rtail =>
        match rtail with
        | '/' :: rtail2 =>
          if scheme ≠ [] ∨ (match rtail2 with | '/' :: _ => false | _ => true) = true then
            match cutList '/' rtail2 with
            | some (authority, r2) => authorityOk authority && unescapeOk .path ('/' :: r2)
            | none => authorityOk rtail2 && unescapeOk .path []
          else unescapeOk .path ('/' :: '/' :: rtail2)
        | _ => unescapeOk .path ('/' :: rtail)
      | _ =>
        if scheme ≠ [] then true
        else if ':' ∈ cutBefore '/' rest then false
        else unescapeOk .path rest

/-- net/url Parse: cut the fragment at the first #, parse the rest, and
    validate a non-empty fragment's escapes. -/
def urlParseOk (s : List Char) : Bool :=
  match cutList '#' s with
  | none => parseOk s
  | some (u, frag) => parseOk u && (frag.isEmpty || unescapeOk .fragment frag)

/-- url.Parse as used by the server closure: none models the nil result of
    a failed parse; a successfully parsed URL is represented by the raw
    accepted string. -/
def urlParse (s : String) : Option String :=
  if urlParseOk s.data then some s else none

/-- The fields of the global Config the claims touch (config.go:18-34).
    ServerURL holds the representation of the parsed *url.URL — the raw
    string url.Parse accepted — and none models a nil pointer, as left by
    the zero value or by a failed parse. -/
structure GoConfig where
  serverURL : Option String
  secretToken : String
  apiKey : String
  secure : Bool
  eventRate : RateFlag
  headers : List (String × String)
deriving DecidableEq

/-- The zero value of the Config variable before any flag.Set runs. -/
def initialConfig : GoConfig :=
  { serverURL := none, secretToken := "", apiKey := "", secure := false,
    eventRate := { Burst := 0, Interval := 0 }, headers := [] }

/-- The registered flags that carry values in the claims. -/
inductive FlagName where
  | server
  | secretToken
  | apiKey
  | secure
  | eventRate
  | header
deriving DecidableEq

/-- One flag.Set / command-line assignment: the Value.Set logic registered
    by init (config.go:72-114) for each flag, as the pair of the mutated
    configuration and the returned error.  The server closure assigns only
    when the value is non-empty (config.go:78-80), and its multiple
    assignment stores url.Parse's result — nil on failure — before the
    error is returned; every other flag leaves its field untouched when its
    value fails validation. -/
def applyFlag (st : GoConfig) : FlagName → String → GoConfig × Option ConfigErr
  | .server, v =>
    if v = "" then (st, none)
    else
      match urlParse v with
      | some u => ({ st with serverURL := some u }, none)
      | none => ({ st with serverURL := none }, some (.invalidURL v))
  | .secretToken, v => ({ st with secretToken := v }, none)
  | .apiKey, v => ({ st with apiKey := v }, none)
  | .secure, v =>
    match parseBool v with
    | some b => ({ st with secure := b }, none)
    | none => (st, some (.invalidBool v))
  | .eventRate, v =>
    match RateFlag.set st.eventRate v with
    | (f2, none) => ({ st with eventRate := f2 }, none)
    | (_, some e) => (st, some e)
  | .header, v =>
    match headerSet st.headers v with
    | (m2, none) => ({ st with headers := m2 }, none)
    | (_, some e) => (st, some e)

/-- The process environment: os.Getenv, an unset variable reads as "". -/
abbrev EnvMap := String → String

/-- getEnvOrDefault (config.go:153-159). -/
def getEnvOrDefault (env : EnvMap) (name defaultValue : String) : String :=
  let value := env name
  if value ≠ "" then value else defaultValue

/-- One iteration of the setFlagsFromEnv loop: flag.Set with its error
    discarded (config.go:149 ignores the return value), so whatever the
    closure assigned — possibly nothing — simply stays. -/
def envSeed (st : GoConfig) (name : FlagName) (value : String) : GoConfig :=
  (applyFlag st name value).1

/-- setFlagsFromEnv (config.go:138-151).  Go iterates the flagEnvMap map in
    an unspecified order; the four seeded flags read and write disjoint
    fields, so the fixed order used here produces the same configuration as
    any other order. -/
def setFlagsFromEnv (env : EnvMap) (st : GoConfig) : GoConfig :=
  let st1 := envSeed st .server (getEnvOrDefault env "ELASTIC_APM_SERVER_URL" "http://127.0.0.1:8200")
  let st2 := envSeed st1 .secretToken (getEnvOrDefault env "ELASTIC_APM_SECRET_TOKEN" "")
  let st3 := envSeed st2 .apiKey (getEnvOrDefault env "ELASTIC_APM_API_KEY" "")
  envSeed st3 .secure (getEnvOrDefault env "ELASTIC_APM_VERIFY_SERVER_CERT" "false")

/-- Standard flag.Parse over the provided assignments, in order; the first
    failing value aborts (flag.CommandLine is in ExitOnError mode, so the
    process exits and the state mutated by the failing Set is never
    observed). -/
def parseArgs (st : GoConfig) : List (FlagName × String) → Except ConfigErr GoConfig
  | [] => .ok st
  | (n, v) :: rest =>
    match applyFlag st n v with
    | (st2, none) => parseArgs st2 rest
    | (_, some e) => .error e

/-- init as far as the claims reach: the registered defaults (the zero
    Config), the environment pre-seeding, then command-line parsing. -/
def initConfig (env : EnvMap) (args : List (FlagName × String)) : Except ConfigErr GoConfig :=
  parseArgs (setFlagsFromEnv env initialConfig) args

/-- Environment with only ELASTIC_APM_VERIFY_SERVER_CERT set, to a string
    that is not a Go boolean. -/
def badBoolEnv : EnvMap :=
  fun n => if n = "ELASTIC_APM_VERIFY_SERVER_CERT" then "notabool" else ""

/-- Environment with only ELASTIC_APM_SERVER_URL set. -/
def serverEnv : EnvMap :=
  fun n => if n = "ELASTIC_APM_SERVER_URL" then "http://envhost:8200" else ""

/-- Environment with only ELASTIC_APM_SERVER_URL set, to a string url.Parse
    rejects (a leading colon is the missing-protocol-scheme error). -/
def badURLEnv : EnvMap :=
  fun n => if n = "ELASTIC_APM_SERVER_URL" then ":bad" else ""

/- Auxiliary lemmas about strings and the cut operation. -/

lemma string_mk_eq_empty_iff (l : List Char) : (⟨l⟩ : String) = "" ↔ l = [] := by
  constructor
  · intro h
    exact congrArg String.data h
  · intro h
    rw [h]

lemma string_eq_empty_iff (s : String) : s = "" ↔ s.data = [] := by
  cases s
  exact string_mk_eq_empty_iff _

lemma cutList_eq_none_iff (sep : Char) (l : List Char) :
    cutList sep l = none ↔ sep ∉ l := by
  induction l with
  | nil => simp [cutList]
  | cons c rest ih =>
    by_cases hc : c = sep
    · subst hc
      simp [cutList]
    · simp only [cutList, if_neg hc]
      cases hcr : cutList sep rest with
      | none =>
        have hr : sep ∉ rest := ih.mp hcr
        constructor
        · intro _ hm
          rcases List.mem_cons.mp hm with h | h
          · exact hc h.symm
          · exact hr h
        · intro _
          rfl
      | some p =>
        obtain ⟨x, y⟩ := p
        have hm : sep ∈ rest := by
          by_contra hnm
          rw [ih.mpr hnm] at hcr
          cases hcr
        simp [List.mem_cons, hm]

lemma cutList_append (sep : Char) (b u : List Char) (h : sep ∉ b) :
    cutList sep (b ++ sep :: u) = some (b, u) := by
  induction b with
  | nil => simp [cutList]
  | cons c cs ih =>
    have hc : c ≠ sep := fun hh => h (hh ▸ List.mem_cons_self c cs)
    have hcs : sep ∉ cs := fun hm => h (List.mem_cons_of_mem _ hm)
    simp [cutList, if_neg hc, ih hcs]

lemma cutList_sound (sep : Char) (l x y : List Char) (h : cutList sep l = some (x, y)) :
    l = x ++ sep :: y ∧ sep ∉ x := by
  induction l generalizing x y with
  | nil => simp [cutList] at h
  | cons c rest ih =>
    by_cases hc : c = sep
    · subst hc
      simp only [cutList, if_pos rfl, Option.some.injEq, Prod.mk.injEq] at h
      obtain ⟨rfl, rfl⟩ := h
      simp
    · simp only [cutList, if_neg hc] at h
      cases hcr : cutList sep rest with
      | none =>
        rw [hcr] at h
        cases h
      | some p =>
        obtain ⟨x2, y2⟩ := p
        rw [hcr] at h
        simp only [Option.some.injEq, Prod.mk.injEq] at h
        obtain ⟨rfl, rfl⟩ := h
        obtain ⟨he, hn⟩ := ih x2 y2 hcr
        refine ⟨by rw [List.cons_append, ← he], ?_⟩
        intro hm
        rcases List.mem_cons.mp hm with hh | hh
        · exact hc hh.symm
        · exact hn hh

/- Digit characters and decimal rendering. -/

lemma goIsDigit_iff (c : Char) : goIsDigit c = true ↔ 48 ≤ c.toNat ∧ c.toNat ≤ 57 := by
  simp [goIsDigit]

lemma digit_char_toNat (d : Nat) (h : d < 10) : (Char.ofNat (48 + d)).toNat = 48 + d := by
  interval_cases d <;> rfl

lemma digit_char_isDigit (d : Nat) (h : d < 10) : goIsDigit (Char.ofNat (48 + d)) = true := by
  interval_cases d <;> rfl

lemma goIsDigit_ne_special (c : Char) (h : goIsDigit c = true) :
    c ≠ '/' ∧ c ≠ '-' ∧ c ≠ '+' := by
  refine ⟨?_, ?_, ?_⟩ <;> rintro rfl <;> exact absurd h (by decide)

lemma natDigitsAux_spec (fuel : Nat) : ∀ n, n < fuel →
    digitsVal (natDigitsAux fuel n) = n
    ∧ (∀ c ∈ natDigitsAux fuel n, goIsDigit c = true)
    ∧ natDigitsAux fuel n ≠ [] := by
  induction fuel with
  | zero => intro n hn; exact absurd hn (Nat.not_lt_zero n)
  | succ fuel ih =>
    intro n hn
    by_cases h10 : n < 10
    · refine ⟨?_, ?_, ?_⟩
      · simp only [natDigitsAux, if_pos h10, digitsVal, List.foldl_cons, List.foldl_nil]
        rw [digit_char_toNat n h10]
        omega
      · intro c hc
        simp only [natDigitsAux, if_pos h10, List.mem_singleton] at hc
        rw [hc]
        exact digit_char_isDigit n h10
      · simp [natDigitsAux, if_pos h10]
    · have hpos : 0 < n := by omega
      have hrec : n / 10 < fuel := by
        have h1 : n / 10 < n := Nat.div_lt_self hpos (by omega)
        omega
      obtain ⟨hval, hdig, hne⟩ := ih (n / 10) hrec
      refine ⟨?_, ?_, ?_⟩
      · simp only [natDigitsAux, if_neg h10, digitsVal, List.foldl_append, List.foldl_cons,
          List.foldl_nil]
        rw [show List.foldl (fun a c => a * 10 + (c.toNat - 48)) 0 (natDigitsAux fuel (n / 10))
              = n / 10 from hval]
        rw [digit_char_toNat (n % 10) (Nat.mod_lt n (by omega))]
        omega
      · intro c hc
        simp only [natDigitsAux, if_neg h10, List.mem_append, List.mem_singleton] at hc
        rcases hc with hc | hc
        · exact hdig c hc
        · rw [hc]
          exact digit_char_isDigit _ (Nat.mod_lt n (by omega))
      · simp [natDigitsAux, if_neg h10]

lemma natDigits_spec (n : Nat) :
    digitsVal (natDigits n) = n
    ∧ (∀ c ∈ natDigits n, goIsDigit c = true)
    ∧ natDigits n ≠ [] :=
  natDigitsAux_spec (n + 1) n (Nat.lt_succ_self n)

lemma natDigits_no_slash (n : Nat) : '/' ∉ natDigits n := by
  intro hm
  exact (goIsDigit_ne_special '/' ((natDigits_spec n).2.1 '/' hm)).1 rfl

lemma goAtoiList_natDigits (n : Nat) (h : n ≤ 2 ^ 63 - 1) :
    goAtoiList (natDigits n) = some ((n : Int)) := by
  obtain ⟨hval, hdig, hne⟩ := natDigits_spec n
  cases hl : natDigits n with
  | nil => exact absurd hl hne
  | cons c rest =>
    have hc : goIsDigit c = true := hdig c (hl ▸ List.mem_cons_self c rest)
    obtain ⟨_, hcm, hcp⟩ := goIsDigit_ne_special c hc
    have hm : (c == '-') = false := beq_eq_false_iff_ne.mpr hcm
    have hp : (c == '+') = false := beq_eq_false_iff_ne.mpr hcp
    have hall : (c :: rest).all goIsDigit = true := by
      rw [List.all_eq_true]
      intro x hx
      exact hdig x (hl ▸ hx)
    rw [hl] at hval
    have h2 : n ≤ 9223372036854775807 := by
      have he : (2 : Nat) ^ 63 - 1 = 9223372036854775807 := by norm_num
      exact he ▸ h
    simp [goAtoiList, hm, hp, hall, hval, h2]

/- A slash can never be consumed by time.ParseDuration: it is neither a
   digit, a period, a sign, nor part of any unit, so any candidate duration
   containing one is rejected.  These lemmas carry that fact through each
   phase of the parse. -/

lemma leadingInt_slash (l : List Char) : ∀ (x v : Nat) (rem : List Char),
    leadingInt x l = some (v, rem) → '/' ∈ l → '/' ∈ rem := by
  induction l with
  | nil =>
    intro x v rem _ hm
    cases hm
  | cons c s ih =>
    intro x v rem h hm
    by_cases hc : goIsDigit c = true
    · have hcne : ('/' : Char) ≠ c := by
        intro hh
        exact (goIsDigit_ne_special c hc).1 hh.symm
      have hms : '/' ∈ s := by
        rcases List.mem_cons.mp hm with hh | hh
        · exact absurd hh hcne
        · exact hh
      simp only [leadingInt, hc, if_true] at h
      by_cases h1 : x > 2 ^ 63 / 10
      · rw [if_pos h1] at h
        cases h
      · rw [if_neg h1] at h
        by_cases h2 : x * 10 + (c.toNat - 48) > 2 ^ 63
        · rw [if_pos h2] at h
          cases h
        · rw [if_neg h2] at h
          exact ih _ _ _ h hms
    · simp only [leadingInt, hc] at h
      simp only [Bool.false_eq_true, if_false, Option.some.injEq, Prod.mk.injEq] at h
      obtain ⟨-, rfl⟩ := h
      exact hm

lemma leadingFraction_slash (l : List Char) : ∀ (x scale : Nat) (ovf : Bool),
    '/' ∈ l → '/' ∈ (leadingFraction x scale ovf l).2.2 := by
  induction l with
  | nil =>
    intro x scale ovf hm
    cases hm
  | cons c s ih =>
    intro x scale ovf hm
    by_cases hc : goIsDigit c = true
    · have hcne : ('/' : Char) ≠ c := by
        intro hh
        exact (goIsDigit_ne_special c hc).1 hh.symm
      have hms : '/' ∈ s := by
        rcases List.mem_cons.mp hm with hh | hh
        · exact absurd hh hcne
        · exact hh
      simp only [leadingFraction, hc, if_true]
      split_ifs <;> exact ih _ _ _ hms
    · simp only [leadingFraction, hc, Bool.false_eq_true, if_false]
      exact hm

lemma durUnit_no_slash (u : List Char) (k : Nat) (h : durUnit u = some k) : '/' ∉ u := by
  unfold durUnit at h
  split_ifs at h with h1 h2 h3 h4 h5 h6 h7 h8
  · subst h1; decide
  · subst h2; decide
  · subst h3; decide
  · subst h4; decide
  · subst h5; decide
  · subst h6; decide
  · subst h7; decide
  · subst h8; decide

lemma durFrac_slash (s1 : List Char) (h : '/' ∈ s1) : '/' ∈ (durFrac s1).2.2.1 := by
  unfold durFrac
  split
  · next s2 =>
    have hs2 : '/' ∈ s2 := by
      rcases List.mem_cons.mp h with hh | hh
      · cases hh
      · exact hh
    show '/' ∈ (leadingFraction 0 1 false s2).2.2
    exact leadingFraction_slash s2 0 1 false hs2
  · exact h

lemma durStep_slash (cs : List Char) (v2 : Nat) (s4 : List Char)
    (h : durStep cs = some (v2, s4)) (hm : '/' ∈ cs) : '/' ∈ s4 := by
  cases cs with
  | nil => cases hm
  | cons c s0 =>
    by_cases hdd : isDigitDot c = true
    · simp only [durStep, hdd, Bool.not_true, Bool.false_eq_true, if_false] at h
      cases hli : leadingInt 0 (c :: s0) with
      | none => rw [hli] at h; cases h
      | some p =>
        obtain ⟨v, s1⟩ := p
        rw [hli] at h
        have hs1 : '/' ∈ s1 := leadingInt_slash (c :: s0) 0 v s1 hli hm
        have hs3 : '/' ∈ (durFrac s1).2.2.1 := durFrac_slash s1 hs1
        simp only at h
        split at h
        · simp at h
        · split at h
          · simp at h
          · split at h
            · simp at h
            · rename_i unit hdu
              have hnu := durUnit_no_slash _ _ hdu
              rcases ite_eq_iff.mp h with ⟨-, hx⟩ | ⟨-, h2⟩
              · cases hx
              · rcases ite_eq_iff.mp h2 with ⟨-, hx⟩ | ⟨-, h3⟩
                · cases hx
                · simp only [Option.some.injEq, Prod.mk.injEq] at h3
                  obtain ⟨-, rfl⟩ := h3
                  have hsplit := List.takeWhile_append_dropWhile
                    (fun ch => !isDigitDot ch) (durFrac s1).2.2.1
                  rw [← hsplit] at hs3
                  rcases List.mem_append.mp hs3 with hh | hh
                  · exact absurd hh hnu
                  · exact hh
    · have hdd2 : isDigitDot c = false := by simpa using hdd
      simp [durStep, hdd2] at h

lemma durLoop_slash (fuel : Nat) : ∀ (d : Nat) (cs : List Char),
    '/' ∈ cs → durLoop fuel d cs = none := by
  induction fuel with
  | zero =>
    intro d cs hm
    cases cs with
    | nil => cases hm
    | cons c s0 => rfl
  | succ n ih =>
    intro d cs hm
    cases cs with
    | nil => cases hm
    | cons c s0 =>
      simp only [durLoop]
      cases hst : durStep (c :: s0) with
      | none => rfl
      | some p =>
        obtain ⟨v2, s4⟩ := p
        have hs4 : '/' ∈ s4 := durStep_slash (c :: s0) v2 s4 hst hm
        simp only
        split_ifs
        · rfl
        · exact ih _ _ hs4

lemma parseDuration_slash (s : List Char) (hm : '/' ∈ s) : parseDuration s = none := by
  cases s with
  | nil => cases hm
  | cons c rest =>
    have key : ∀ (neg : Bool) (s1 : List Char), '/' ∈ s1 →
        (if s1 = ['0'] then some (0 : Int)
         else if s1 = [] then none
         else
           match durLoop s1.length 0 s1 with
           | none => none
           | some d =>
             if neg then some (-(d : Int))
             else if d > 2 ^ 63 - 1 then none
             else some ((d : Int))) = none := by
      intro neg s1 h1
      have hz : s1 ≠ ['0'] := by
        intro hh
        rw [hh] at h1
        rcases List.mem_singleton.mp h1 with h2
        cases h2
      have hne : s1 ≠ [] := by
        intro hh
        rw [hh] at h1
        cases h1
      rw [if_neg hz, if_neg hne, durLoop_slash s1.length 0 s1 h1]
    by_cases hminus : c = '-'
    · subst hminus
      have h1 : '/' ∈ rest := by
        rcases List.mem_cons.mp hm with hh | hh
        · cases hh
        · exact hh
      simpa only [parseDuration, if_pos rfl] using key true rest h1
    · by_cases hplus : c = '+'
      · subst hplus
        have h1 : '/' ∈ rest := by
          rcases List.mem_cons.mp hm with hh | hh
          · cases hh
          · exact hh
        simpa only [parseDuration, if_neg hminus, if_pos rfl] using key false rest h1
      · simpa only [parseDuration, if_neg hminus, if_neg hplus] using key false (c :: rest) hm

/- Unfolding lemmas for the rate parser. -/

lemma prepOne_digit (a : String) (c : Char) (cs : List Char)
    (h : a.data = c :: cs) (hc : goIsDigit c = true) : prepOne a = a := by
  unfold prepOne
  rw [h]
  simp [hc]

lemma prepOne_nondigit (a : String) (c : Char) (cs : List Char)
    (h : a.data = c :: cs) (hc : goIsDigit c = false) :
    prepOne a = (⟨'1' :: a.data⟩ : String) := by
  unfold prepOne
  rw [h]
  simp only [hc, Bool.false_eq_true, if_false]

lemma prepOne_mem_slash (a : String) (h : '/' ∈ a.data) : '/' ∈ (prepOne a).data := by
  cases hd : a.data with
  | nil => rw [hd] at h; cases h
  | cons c cs =>
    by_cases hc : goIsDigit c = true
    · rw [prepOne_digit a c cs hd hc]
      exact h
    · rw [prepOne_nondigit a c cs hd (by simpa using hc)]
      exact List.mem_cons_of_mem _ h

lemma setInterval_slash (f : RateFlag) (burst : Int) (a : String) (h : '/' ∈ a.data) :
    setInterval f burst a = (f, some (ConfigErr.invalidInterval (prepOne a))) := by
  have hpd : parseDuration (prepOne a).data = none :=
    parseDuration_slash _ (prepOne_mem_slash a h)
  simp [setInterval, hpd]

lemma setInterval_prepend (f : RateFlag) (burst : Int) (u : String) (c : Char) (cs : List Char)
    (hu : u.data = c :: cs) (hc : goIsDigit c = false) :
    setInterval f burst u = setInterval f burst ⟨'1' :: u.data⟩ := by
  have h1 : prepOne u = ⟨'1' :: u.data⟩ := prepOne_nondigit u c cs hu hc
  have h2 : prepOne ⟨'1' :: u.data⟩ = ⟨'1' :: u.data⟩ :=
    prepOne_digit _ '1' u.data rfl (by decide)
  unfold setInterval
  rw [h1, h2]

lemma setInterval_err_fst (f : RateFlag) (burst : Int) (a : String) (e : ConfigErr)
    (h : (setInterval f burst a).2 = some e) : (setInterval f burst a).1 = f := by
  unfold setInterval at h ⊢
  cases hpd : parseDuration (prepOne a).data with
  | none => rfl
  | some i =>
    rw [hpd] at h
    simp only at h ⊢
    by_cases hi : i ≤ 0
    · rw [if_pos hi]
    · rw [if_neg hi] at h
      simp at h

lemma setInterval_ok (f f2 : RateFlag) (burst : Int) (a : String)
    (h : setInterval f burst a = (f2, none)) :
    ∃ i, 0 < i ∧ parseDuration (prepOne a).data = some i
      ∧ f2 = { Burst := burst, Interval := i } := by
  unfold setInterval at h
  cases hpd : parseDuration (prepOne a).data with
  | none =>
    rw [hpd] at h
    simp at h
  | some i =>
    rw [hpd] at h
    simp only at h
    by_cases hi : i ≤ 0
    · rw [if_pos hi] at h
      simp at h
    · rw [if_neg hi] at h
      refine ⟨i, by omega, rfl, ?_⟩
      have h1 := congrArg Prod.fst h
      simpa using h1.symm

lemma set_eq_no_sep (f : RateFlag) (s : String) (h : cutList '/' s.data = none) :
    RateFlag.set f s = (f, some (ConfigErr.invalidRate s)) := by
  simp [RateFlag.set, goCut, h]

lemma set_eq_empty_sides (f : RateFlag) (s : String) (b a : List Char)
    (h : cutList '/' s.data = some (b, a)) (hba : b = [] ∨ a = []) :
    RateFlag.set f s = (f, some (ConfigErr.invalidRate s)) := by
  simp only [RateFlag.set, goCut, h]
  rw [if_pos]
  rcases hba with rfl | rfl
  · right
    left
    rfl
  · right
    right
    rfl

lemma set_eq_cut (f : RateFlag) (s : String) (b a : List Char)
    (h : cutList '/' s.data = some (b, a)) (hb : b ≠ []) (ha : a ≠ []) :
    RateFlag.set f s =
      (match goAtoiList b with
       | none => (f, some (ConfigErr.invalidBurst ⟨b⟩))
       | some burst => setInterval f burst ⟨a⟩) := by
  simp only [RateFlag.set, goCut, h]
  rw [if_neg]
  · rfl
  · rintro (h1 | h1 | h1)
    · cases h1
    · exact hb ((string_mk_eq_empty_iff b).mp h1)
    · exact ha ((string_mk_eq_empty_iff a).mp h1)

/- Lookup lemmas for the association-list model of the Go header map. -/

lemma lookup_map_self (m : List (String × String)) (k v : String)
    (hany : m.any (fun p => p.1 == k) = true) :
    (m.map (fun p => if p.1 == k then (k, v) else p)).lookup k = some v := by
  induction m with
  | nil => simp at hany
  | cons p m ih =>
    obtain ⟨p1, p2⟩ := p
    by_cases hp : p1 = k
    · have hbeq : (p1 == k) = true := beq_iff_eq.mpr hp
      simp only [List.map_cons]
      rw [if_pos hbeq]
      simp [List.lookup]
    · have hbeq : (p1 == k) = false := beq_eq_false_iff_ne.mpr hp
      have hk : (k == p1) = false := beq_eq_false_iff_ne.mpr (fun hh => hp hh.symm)
      simp only [List.any_cons, hbeq, Bool.false_or] at hany
      simp only [List.map_cons]
      rw [if_neg (show ¬((p1 == k) = true) by simp [hbeq])]
      simp only [List.lookup, hk]
      exact ih hany

lemma lookup_map_ne (m : List (String × String)) (k v k2 : String) (h : k2 ≠ k) :
    (m.map (fun p => if p.1 == k then (k, v) else p)).lookup k2 = m.lookup k2 := by
  induction m with
  | nil => rfl
  | cons p m ih =>
    obtain ⟨p1, p2⟩ := p
    by_cases hp : p1 = k
    · have hbeq : (p1 == k) = true := beq_iff_eq.mpr hp
      have hk2 : (k2 == k) = false := beq_eq_false_iff_ne.mpr h
      have hk2p : (k2 == p1) = false := by rw [hp]; exact hk2
      simp only [List.map_cons]
      rw [if_pos hbeq]
      simp only [List.lookup, hk2, hk2p]
      exact ih
    · have hbeq : (p1 == k) = false := beq_eq_false_iff_ne.mpr hp
      simp only [List.map_cons]
      rw [if_neg (show ¬((p1 == k) = true) by simp [hbeq])]
      cases hx : (k2 == p1) <;> simp only [List.lookup, hx]
      exact ih

lemma lookup_none_of_any_false (m : List (String × String)) (k : String)
    (h : m.any (fun p => p.1 == k) = false) : m.lookup k = none := by
  induction m with
  | nil => rfl
  | cons p m ih =>
    simp only [List.any_cons, Bool.or_eq_false_iff] at h
    obtain ⟨h1, h2⟩ := h
    have hk : (k == p.1) = false := by
      refine beq_eq_false_iff_ne.mpr fun hh => ?_
      rw [beq_eq_false_iff_ne] at h1
      exact h1 hh.symm
    simp [List.lookup, hk, ih h2]

lemma lookup_append_of_none (m l : List (String × String)) (a : String)
    (h : m.lookup a = none) : (m ++ l).lookup a = l.lookup a := by
  induction m with
  | nil => rfl
  | cons p m ih =>
    cases hk : (a == p.1) with
    | true => simp [List.lookup, hk] at h
    | false =>
      simp only [List.lookup, hk] at h
      simp [List.lookup, hk, ih h]

lemma lookup_append_of_some (m l : List (String × String)) (a b : String)
    (h : m.lookup a = some b) : (m ++ l).lookup a = some b := by
  induction m with
  | nil => cases h
  | cons p m ih =>
    cases hk : (a == p.1) with
    | true =>
      simp only [List.lookup, hk] at h
      simp [List.lookup, hk, h]
    | false =>
      simp only [List.lookup, hk] at h
      simp [List.lookup, hk, ih h]

lemma mapInsert_lookup_self (m : List (String × String)) (k v : String) :
    (mapInsert m k v).lookup k = some v := by
  unfold mapInsert
  by_cases hany : m.any (fun p => p.1 == k) = true
  · rw [if_pos hany]
    exact lookup_map_self m k v hany
  · rw [if_neg hany]
    have h0 : m.any (fun p => p.1 == k) = false := Bool.eq_false_iff.mpr hany
    rw [lookup_append_of_none m [(k, v)] k (lookup_none_of_any_false m k h0)]
    simp [List.lookup]

lemma mapInsert_lookup_ne (m : List (String × String)) (k v k2 : String) (h : k2 ≠ k) :
    (mapInsert m k v).lookup k2 = m.lookup k2 := by
  unfold mapInsert
  by_cases hany : m.any (fun p => p.1 == k) = true
  · rw [if_pos hany]
    exact lookup_map_ne m k v k2 h
  · rw [if_neg hany]
    cases hm : m.lookup k2 with
    | some b => exact lookup_append_of_some m [(k, v)] k2 b hm
    | none =>
      rw [lookup_append_of_none m [(k, v)] k2 hm]
      simp [List.lookup, beq_eq_false_iff_ne.mpr h, hm]

/- Lemmas for the configuration resolver. -/

lemma getEnvOrDefault_ne (env : EnvMap) (n d : String) (hd : d ≠ "") :
    getEnvOrDefault env n d ≠ "" := by
  unfold getEnvOrDefault
  dsimp only
  split_ifs with h
  · exact h
  · exact hd

lemma getEnvOrDefault_of_set (env : EnvMap) (n d : String) (h : env n ≠ "") :
    getEnvOrDefault env n d = env n := by
  unfold getEnvOrDefault
  dsimp only
  rw [if_pos h]

lemma getEnvOrDefault_of_unset (env : EnvMap) (n d : String) (h : env n = "") :
    getEnvOrDefault env n d = d := by
  unfold getEnvOrDefault
  dsimp only
  rw [if_neg (by simp [h])]

lemma urlParse_some_eq (v u : String) (h : urlParse v = some u) : u = v := by
  unfold urlParse at h
  split_ifs at h
  exact (Option.some.injEq _ _ ▸ h).symm

lemma setFlagsFromEnv_eq (env : EnvMap) :
    setFlagsFromEnv env initialConfig =
      { serverURL := urlParse (getEnvOrDefault env "ELASTIC_APM_SERVER_URL" "http://127.0.0.1:8200"),
        secretToken := getEnvOrDefault env "ELASTIC_APM_SECRET_TOKEN" "",
        apiKey := getEnvOrDefault env "ELASTIC_APM_API_KEY" "",
        secure := (parseBool (getEnvOrDefault env "ELASTIC_APM_VERIFY_SERVER_CERT" "false")).getD false,
        eventRate := { Burst := 0, Interval := 0 },
        headers := [] } := by
  have h1 : getEnvOrDefault env "ELASTIC_APM_SERVER_URL" "http://127.0.0.1:8200" ≠ "" :=
    getEnvOrDefault_ne env _ _ (by decide)
  simp only [setFlagsFromEnv, envSeed, applyFlag, initialConfig, if_neg h1]
  cases hup : urlParse (getEnvOrDefault env "ELASTIC_APM_SERVER_URL" "http://127.0.0.1:8200") <;>
    cases hpb : parseBool (getEnvOrDefault env "ELASTIC_APM_VERIFY_SERVER_CERT" "false") <;>
      simp [hup, hpb]

lemma parseArgs_cons_ok (st st2 : GoConfig) (n : FlagName) (v : String)
    (rest : List (FlagName × String)) (h : applyFlag st n v = (st2, none)) :
    parseArgs st ((n, v) :: rest) = parseArgs st2 rest := by
  simp only [parseArgs]
  rw [h]

lemma parseArgs_cons_err (st : GoConfig) (n : FlagName) (v : String)
    (rest : List (FlagName × String)) (e : ConfigErr) (h : (applyFlag st n v).2 = some e) :
    parseArgs st ((n, v) :: rest) = .error e := by
  have hA : applyFlag st n v = ((applyFlag st n v).1, some e) := by
    rw [← h]
  simp only [parseArgs]
  rw [hA]

/- Claim theorems. -/

/-- C1, counterexample to the claim as stated: the interval string "+5s" is
    itself parseable as a duration and denotes the positive duration 5s, yet
    parsing "10/+5s" fails, because the non-digit first byte '+' makes the
    parser prepend '1' and "1+5s" is a malformed duration.  Likewise a burst
    of 2^63 (outside the Go int range) makes the parse fail. -/
theorem rate_parse_concat_cex :
    parseDuration "+5s".data = some 5000000000
    ∧ (0 : Int) < 5000000000
    ∧ RateFlag.set { Burst := 0, Interval := 0 } "10/+5s"
        = ({ Burst := 0, Interval := 0 }, some (ConfigErr.invalidInterval "1+5s"))
    ∧ RateFlag.set { Burst := 0, Interval := 0 } "9223372036854775808/1s"
        = ({ Burst := 0, Interval := 0 },
            some (ConfigErr.invalidBurst "9223372036854775808")) :=
  ⟨by decide, by decide, by decide, by decide⟩

/-- C1 (amended): for every burst in the Go int range 0 ≤ burst < 2^63 and
    every interval string d that is parseable as a duration, denotes a
    positive duration, and starts with a decimal digit, parsing
    "{burst}/{d}" succeeds and yields Burst = burst and Interval = the
    duration denoted by d. -/
theorem rate_parse_concat_amended (burst : Nat) (hb : burst < 2 ^ 63)
    (d : String) (v : Int) (hpd : parseDuration d.data = some v) (hv : 0 < v)
    (c : Char) (cs : List Char) (hdc : d.data = c :: cs) (hc : goIsDigit c = true)
    (f : RateFlag) :
    RateFlag.set f (natDigitsStr burst ++ "/" ++ d)
      = ({ Burst := (burst : Int), Interval := v }, none) := by
  have hdata : (natDigitsStr burst ++ "/" ++ d).data = natDigits burst ++ '/' :: d.data := by
    show (natDigits burst ++ ['/']) ++ d.data = natDigits burst ++ '/' :: d.data
    rw [List.append_assoc]
    rfl
  have hcut : cutList '/' (natDigitsStr burst ++ "/" ++ d).data
      = some (natDigits burst, d.data) := by
    rw [hdata]
    exact cutList_append '/' _ _ (natDigits_no_slash burst)
  have hbne : natDigits burst ≠ [] := (natDigits_spec burst).2.2
  have hdne : d.data ≠ [] := by rw [hdc]; simp
  rw [set_eq_cut f _ _ _ hcut hbne hdne]
  have h2 : (2 : Nat) ^ 63 = 9223372036854775808 := by norm_num
  have hrange : burst ≤ 2 ^ 63 - 1 := by
    rw [h2] at hb ⊢
    omega
  rw [goAtoiList_natDigits burst hrange]
  simp only
  have heta : (⟨d.data⟩ : String) = d := rfl
  rw [heta]
  unfold setInterval
  rw [prepOne_digit d c cs hdc hc, hpd]
  simp only
  rw [if_neg (by omega)]

/-- C1 witness: parsing "10/5s" (built as "{10}/{5s}") succeeds with
    Burst 10 and Interval 5s. -/
theorem rate_parse_concat_witness :
    RateFlag.set { Burst := 0, Interval := 0 } (natDigitsStr 10 ++ "/" ++ "5s")
      = ({ Burst := 10, Interval := 5000000000 }, none) :=
  rate_parse_concat_amended 10 (by norm_num) "5s" 5000000000 (by decide) (by decide)
    '5' ['s'] rfl (by decide) _

/-- C3: for every burst string b and every non-empty interval string u whose
    first character is not a decimal digit, parsing "{b}/{u}" is equivalent
    to parsing "{b}/1{u}" — same success or failure, and the same resulting
    RateFlag either way; in particular "10/s" parses to one second. -/
theorem rate_shorthand_equiv (b u : String) (c : Char) (cs : List Char)
    (hu : u.data = c :: cs) (hc : goIsDigit c = false) (f : RateFlag) :
    ((RateFlag.set f (b ++ "/" ++ u)).2 = none
      ↔ (RateFlag.set f (b ++ "/1" ++ u)).2 = none)
    ∧ (RateFlag.set f (b ++ "/" ++ u)).1 = (RateFlag.set f (b ++ "/1" ++ u)).1
    ∧ RateFlag.set { Burst := 0, Interval := 0 } "10/s"
        = ({ Burst := 10, Interval := 1000000000 }, none) := by
  have hd1 : (b ++ "/" ++ u).data = b.data ++ '/' :: u.data := by
    show (b.data ++ ['/']) ++ u.data = b.data ++ '/' :: u.data
    rw [List.append_assoc]
    rfl
  have hd2 : (b ++ "/1" ++ u).data = b.data ++ '/' :: '1' :: u.data := by
    show (b.data ++ ['/', '1']) ++ u.data = b.data ++ '/' :: '1' :: u.data
    rw [List.append_assoc]
    rfl
  have key : ((RateFlag.set f (b ++ "/" ++ u)).2 = none
        ↔ (RateFlag.set f (b ++ "/1" ++ u)).2 = none)
      ∧ (RateFlag.set f (b ++ "/" ++ u)).1 = (RateFlag.set f (b ++ "/1" ++ u)).1 := by
    by_cases hb : '/' ∈ b.data
    · cases hcb : cutList '/' b.data with
      | none => exact absurd hb ((cutList_eq_none_iff '/' b.data).mp hcb)
      | some p =>
        obtain ⟨b1, b2⟩ := p
        obtain ⟨hbe, hb1⟩ := cutList_sound '/' b.data b1 b2 hcb
        have hcut1 : cutList '/' (b ++ "/" ++ u).data
            = some (b1, b2 ++ '/' :: u.data) := by
          rw [hd1, hbe, List.append_assoc, List.cons_append]
          exact cutList_append '/' _ _ hb1
        have hcut2 : cutList '/' (b ++ "/1" ++ u).data
            = some (b1, b2 ++ '/' :: '1' :: u.data) := by
          rw [hd2, hbe, List.append_assoc, List.cons_append]
          exact cutList_append '/' _ _ hb1
        by_cases hb1e : b1 = []
        · rw [set_eq_empty_sides f _ _ _ hcut1 (Or.inl hb1e),
            set_eq_empty_sides f _ _ _ hcut2 (Or.inl hb1e)]
          exact ⟨by simp, rfl⟩
        · have ha1 : b2 ++ '/' :: u.data ≠ [] := by simp
          have ha2 : b2 ++ '/' :: '1' :: u.data ≠ [] := by simp
          rw [set_eq_cut f _ _ _ hcut1 hb1e ha1, set_eq_cut f _ _ _ hcut2 hb1e ha2]
          cases hat : goAtoiList b1 with
          | none => exact ⟨Iff.rfl, rfl⟩
          | some burst =>
            simp only
            have hm1 : '/' ∈ (⟨b2 ++ '/' :: u.data⟩ : String).data :=
              List.mem_append_right _ (List.mem_cons_self _ _)
            have hm2 : '/' ∈ (⟨b2 ++ '/' :: '1' :: u.data⟩ : String).data :=
              List.mem_append_right _ (List.mem_cons_self _ _)
            rw [setInterval_slash f burst _ hm1, setInterval_slash f burst _ hm2]
            exact ⟨by simp, rfl⟩
    · have hcut1 : cutList '/' (b ++ "/" ++ u).data = some (b.data, u.data) := by
        rw [hd1]
        exact cutList_append '/' _ _ hb
      have hcut2 : cutList '/' (b ++ "/1" ++ u).data = some (b.data, '1' :: u.data) := by
        rw [hd2]
        exact cutList_append '/' _ _ hb
      by_cases hbe : b.data = []
      · rw [set_eq_empty_sides f _ _ _ hcut1 (Or.inl hbe),
          set_eq_empty_sides f _ _ _ hcut2 (Or.inl hbe)]
        exact ⟨by simp, rfl⟩
      · have hue : u.data ≠ [] := by rw [hu]; simp
        have hu1 : ('1' :: u.data) ≠ [] := by simp
        rw [set_eq_cut f _ _ _ hcut1 hbe hue, set_eq_cut f _ _ _ hcut2 hbe hu1]
        cases hat : goAtoiList b.data with
        | none => exact ⟨Iff.rfl, rfl⟩
        | some burst =>
          simp only
          have heta : (⟨u.data⟩ : String) = u := rfl
          rw [heta, setInterval_prepend f burst u c cs hu hc]
          exact ⟨Iff.rfl, rfl⟩
  exact ⟨key.1, key.2, by decide⟩

/-- C3 witness: the shorthand equivalence at b = "10", u = "s". -/
theorem rate_shorthand_equiv_witness :
    ((RateFlag.set { Burst := 0, Interval := 0 } ("10" ++ "/" ++ "s")).2 = none
      ↔ (RateFlag.set { Burst := 0, Interval := 0 } ("10" ++ "/1" ++ "s")).2 = none)
    ∧ (RateFlag.set { Burst := 0, Interval := 0 } ("10" ++ "/" ++ "s")).1
        = (RateFlag.set { Burst := 0, Interval := 0 } ("10" ++ "/1" ++ "s")).1
    ∧ RateFlag.set { Burst := 0, Interval := 0 } "10/s"
        = ({ Burst := 10, Interval := 1000000000 }, none) :=
  rate_shorthand_equiv "10" "s" 's' [] rfl (by decide) _

/-- C4, counterexample to the claim as stated: parsing burst 10 with the
    interval text "-1s" does not fail with the non-positive-interval error;
    the '-' is not a digit, so '1' is prepended and the malformed duration
    "1-1s" fails the duration parse instead. -/
theorem rate_nonpositive_cex :
    RateFlag.set { Burst := 0, Interval := 0 } "10/-1s"
      = ({ Burst := 0, Interval := 0 }, some (ConfigErr.invalidInterval "1-1s")) := by
  decide

/-- C4 (amended): parsing "10/0s" fails with the NonPositiveInterval error;
    parsing burst 10 with interval text "-1s" fails with the InvalidInterval
    error, since the prepended text "1-1s" is a malformed duration (its unit
    token "-" is unknown). -/
theorem rate_nonpositive_amended :
    RateFlag.set { Burst := 0, Interval := 0 } "10/0s"
      = ({ Burst := 0, Interval := 0 }, some (ConfigErr.nonPositiveInterval "0s"))
    ∧ RateFlag.set { Burst := 0, Interval := 0 } "10/-1s"
      = ({ Burst := 0, Interval := 0 }, some (ConfigErr.invalidInterval "1-1s")) :=
  ⟨by decide, by decide⟩

/-- C5: on every failing input the rate parser leaves the target RateFlag
    completely unchanged; the fields are assigned only on the all-checks-pass
    path. -/
theorem rate_set_unchanged_on_error (f : RateFlag) (s : String) (e : ConfigErr)
    (h : (RateFlag.set f s).2 = some e) : (RateFlag.set f s).1 = f := by
  cases hcut : cutList '/' s.data with
  | none => rw [set_eq_no_sep f s hcut]
  | some p =>
    obtain ⟨b, a⟩ := p
    by_cases hba : b = [] ∨ a = []
    · rw [set_eq_empty_sides f s b a hcut hba]
    · push_neg at hba
      obtain ⟨hb, ha⟩ := hba
      have hset := set_eq_cut f s b a hcut hb ha
      rw [hset] at h ⊢
      cases hat : goAtoiList b with
      | none => rfl
      | some burst =>
        rw [hat] at h
        simp only at h ⊢
        exact setInterval_err_fst f burst ⟨a⟩ e h

/-- C5 witness: a failing parse ("bad" has no separator) leaves the prior
    value 1/2ns in place. -/
theorem rate_set_unchanged_on_error_witness :
    (RateFlag.set { Burst := 1, Interval := 2 } "bad").1 = { Burst := 1, Interval := 2 } :=
  rate_set_unchanged_on_error { Burst := 1, Interval := 2 } "bad"
    (ConfigErr.invalidRate "bad") (by decide)

/-- C6, counterexample to the claim as stated: the parser rejects the bare
    shorthand "/s" with the invalid-rate error, because the text before the
    separator is empty. -/
theorem rate_format_cex :
    RateFlag.set { Burst := 0, Interval := 0 } "/s"
      = ({ Burst := 0, Interval := 0 }, some (ConfigErr.invalidRate "/s")) := by
  decide

/-- C6 (amended): the bare shorthand "/s" is rejected with the invalid-rate
    error (the burst side may not be empty); the format operation prints the
    burst, then '/', then the interval's standard duration string, so
    round-tripping "1/s" produces "1/1s" and round-tripping "5/2s" produces
    "5/2s". -/
theorem rate_format_amended :
    RateFlag.set { Burst := 0, Interval := 0 } "/s"
      = ({ Burst := 0, Interval := 0 }, some (ConfigErr.invalidRate "/s"))
    ∧ (∀ f : RateFlag,
        RateFlag.string f = (⟨intRepr f.Burst⟩ : String) ++ "/" ++ durationString f.Interval)
    ∧ RateFlag.string ((RateFlag.set { Burst := 0, Interval := 0 } "1/s").1) = "1/1s"
    ∧ RateFlag.string ((RateFlag.set { Burst := 0, Interval := 0 } "5/2s").1) = "5/2s" :=
  ⟨by decide, fun f => rfl, by decide, by decide⟩

/-- C7, counterexample to the claim as stated: "-5/1s" parses successfully
    and stores the negative burst -5, so a successful parse does not
    guarantee a non-negative Burst. -/
theorem rate_invariant_cex :
    RateFlag.set { Burst := 0, Interval := 0 } "-5/1s"
      = ({ Burst := -5, Interval := 1000000000 }, none)
    ∧ (-5 : Int) < 0 :=
  ⟨by decide, by decide⟩

/-- C7 (amended): every RateFlag produced by a successful parse has a
    strictly positive Interval; Burst is whatever integer the burst text
    denoted, and may be negative since the integer parser accepts a sign. -/
theorem rate_invariant_amended (f f2 : RateFlag) (s : String)
    (h : RateFlag.set f s = (f2, none)) : 0 < f2.Interval := by
  cases hcut : cutList '/' s.data with
  | none =>
    rw [set_eq_no_sep f s hcut] at h
    exact absurd (congrArg Prod.snd h) (by simp)
  | some p =>
    obtain ⟨b, a⟩ := p
    by_cases hba : b = [] ∨ a = []
    · rw [set_eq_empty_sides f s b a hcut hba] at h
      exact absurd (congrArg Prod.snd h) (by simp)
    · push_neg at hba
      obtain ⟨hb, ha⟩ := hba
      rw [set_eq_cut f s b a hcut hb ha] at h
      cases hat : goAtoiList b with
      | none =>
        rw [hat] at h
        exact absurd (congrArg Prod.snd h) (by simp)
      | some burst =>
        rw [hat] at h
        simp only at h
        obtain ⟨i, hi, -, hf2⟩ := setInterval_ok f f2 burst ⟨a⟩ h
        rw [hf2]
        exact hi

/-- C7 witness: the successful parse of "10/s" has a positive interval. -/
theorem rate_invariant_witness :
    (0 : Int) < ({ Burst := 10, Interval := 1000000000 } : RateFlag).Interval :=
  rate_invariant_amended { Burst := 0, Interval := 0 } _ "10/s" (by decide)

/-- C8: a header value with an '=' separator inserts or overwrites exactly
    one entry of the mapping (the cut key gets the cut value, every other
    key is untouched), duplicate keys keep the last value, and a value with
    no '=' fails with the invalid-header error leaving the mapping
    unchanged. -/
theorem header_insert_spec (m : List (String × String)) (s : String) :
    ('=' ∉ s.data → headerSet m s = (m, some (ConfigErr.invalidHeader s)))
    ∧ ('=' ∈ s.data → ∃ k v, goCut s '=' = (k, v, true)
        ∧ headerSet m s = (mapInsert m k v, none)
        ∧ (headerSet m s).1.lookup k = some v
        ∧ ∀ k2, k2 ≠ k → (headerSet m s).1.lookup k2 = m.lookup k2)
    ∧ headerSet ((headerSet [] "X-Key=value1").1) "X-Key=value2"
        = ([("X-Key", "value2")], none) := by
  refine ⟨?_, ?_, by decide⟩
  · intro hm
    have hcut : cutList '=' s.data = none := (cutList_eq_none_iff _ _).mpr hm
    simp [headerSet, goCut, hcut]
  · intro hm
    cases hcut : cutList '=' s.data with
    | none => exact absurd hm ((cutList_eq_none_iff _ _).mp hcut)
    | some p =>
      obtain ⟨k0, v0⟩ := p
      have hh : headerSet m s = (mapInsert m ⟨k0⟩ ⟨v0⟩, none) := by
        simp [headerSet, goCut, hcut]
      refine ⟨⟨k0⟩, ⟨v0⟩, by simp [goCut, hcut], hh, ?_, ?_⟩
      · rw [hh]
        exact mapInsert_lookup_self m _ _
      · intro k2 hk2
        rw [hh]
        exact mapInsert_lookup_ne m _ _ _ hk2

/-- C8 witness: a header value without '=' is rejected and the mapping is
    unchanged. -/
theorem header_insert_spec_witness :
    headerSet [("a", "b")] "noequals"
      = ([("a", "b")], some (ConfigErr.invalidHeader "noequals")) :=
  (header_insert_spec [("a", "b")] "noequals").1 (by decide)

/-- C10: a header value splits at the first '=' only — the key is the text
    before the first '=', the value is everything after it (and may itself
    contain '='), both stored verbatim; in particular "k=a=b" maps k to
    "a=b". -/
theorem header_split_first_eq (m : List (String × String)) (k v : String)
    (h : '=' ∉ k.data) :
    headerSet m (k ++ "=" ++ v) = (mapInsert m k v, none)
    ∧ headerSet [] "k=a=b" = ([("k", "a=b")], none) := by
  refine ⟨?_, by decide⟩
  have hdata : (k ++ "=" ++ v).data = k.data ++ '=' :: v.data := by
    show (k.data ++ ['=']) ++ v.data = k.data ++ '=' :: v.data
    rw [List.append_assoc]
    rfl
  have hcut2 : cutList '=' (k.data ++ '=' :: v.data) = some (k.data, v.data) :=
    cutList_append '=' _ _ h
  unfold headerSet goCut
  rw [hdata, hcut2]

/-- C10 witness: the split of "k0=a=b" stores value "a=b" under key "k0". -/
theorem header_split_first_eq_witness :
    headerSet [] ("k0" ++ "=" ++ "a=b") = (mapInsert [] "k0" "a=b", none)
    ∧ headerSet [] "k=a=b" = ([("k", "a=b")], none) :=
  header_split_first_eq [] "k0" "a=b" (by decide)

/-- C2, counterexamples to the claim as stated: with the server environment
    variable set, the explicitly supplied empty command-line value -server=""
    does not win — the server closure only assigns when its value is
    non-empty, so the resolved endpoint stays at the environment value; and
    with the environment variable set to a string url.Parse rejects,
    initialization still succeeds but the resolved endpoint is nil rather
    than the environment value, since the seeding error is discarded. -/
theorem config_precedence_cex :
    initConfig serverEnv [(.server, "")]
      = .ok { serverURL := some "http://envhost:8200", secretToken := "", apiKey := "",
              secure := false, eventRate := { Burst := 0, Interval := 0 },
              headers := [] }
    ∧ urlParse ":bad" = none
    ∧ initConfig badURLEnv []
        = .ok { serverURL := none, secretToken := "", apiKey := "",
                secure := false, eventRate := { Burst := 0, Interval := 0 },
                headers := [] } :=
  ⟨rfl, rfl, rfl⟩

/-- C2 (amended): resolution precedence for the four environment-backed
    fields is flag over environment over built-in default, with two
    qualifications forced by the code: an explicitly empty server flag value
    is ignored (the closure assigns only when the value is non-empty), and
    the server field stores the result of url.Parse — with the environment
    variable set and no flag given, ServerURL equals the parse of the
    environment value, which is that value itself when url.Parse accepts it
    and nil when it does not (the seeding error is discarded).  A non-empty
    accepted server flag value wins; secret-token and api-key flag values
    always win; a secure flag value that parses as a boolean wins; with
    nothing given the server endpoint is the default
    http://127.0.0.1:8200. -/
theorem config_precedence_amended (env : EnvMap) (v : String) (st : GoConfig) :
    (v ≠ "" → initConfig env [(.server, v)] = .ok st → st.serverURL = some v)
    ∧ (initConfig env [(.secretToken, v)] = .ok st → st.secretToken = v)
    ∧ (initConfig env [(.apiKey, v)] = .ok st → st.apiKey = v)
    ∧ (initConfig env [(.secure, v)] = .ok st → parseBool v = some st.secure)
    ∧ (env "ELASTIC_APM_SERVER_URL" ≠ "" → initConfig env [] = .ok st →
        st.serverURL = urlParse (env "ELASTIC_APM_SERVER_URL"))
    ∧ (env "ELASTIC_APM_SERVER_URL" = "" → initConfig env [] = .ok st →
        st.serverURL = some "http://127.0.0.1:8200")
    ∧ (initConfig env [] = .ok st →
        st.secretToken = getEnvOrDefault env "ELASTIC_APM_SECRET_TOKEN" "")
    ∧ (initConfig env [] = .ok st →
        st.apiKey = getEnvOrDefault env "ELASTIC_APM_API_KEY" "")
    ∧ (initConfig env [] = .ok st →
        st.secure
          = (parseBool (getEnvOrDefault env "ELASTIC_APM_VERIFY_SERVER_CERT" "false")).getD
              false) := by
  have hok_nil : ∀ st2 : GoConfig, initConfig env [] = .ok st2 →
      st2 = setFlagsFromEnv env initialConfig := by
    intro st2 hok
    unfold initConfig at hok
    simp only [parseArgs] at hok
    injection hok with hh
    exact hh.symm
  refine ⟨?_, ?_, ?_, ?_, ?_, ?_, ?_, ?_, ?_⟩
  · intro hv hok
    unfold initConfig at hok
    cases hup : urlParse v with
    | none =>
      have happ : (applyFlag (setFlagsFromEnv env initialConfig) .server v).2
          = some (.invalidURL v) := by
        simp [applyFlag, hv, hup]
      rw [parseArgs_cons_err _ _ _ _ _ happ] at hok
      cases hok
    | some u2 =>
      have hu2 : u2 = v := urlParse_some_eq v u2 hup
      have happ : applyFlag (setFlagsFromEnv env initialConfig) .server v
          = ({ setFlagsFromEnv env initialConfig with serverURL := some u2 }, none) := by
        simp [applyFlag, hv, hup]
      rw [parseArgs_cons_ok _ _ _ _ _ happ] at hok
      simp only [parseArgs] at hok
      injection hok with hh
      rw [← hh, hu2]
  · intro hok
    have happ : applyFlag (setFlagsFromEnv env initialConfig) .secretToken v
        = ({ setFlagsFromEnv env initialConfig with secretToken := v }, none) := rfl
    unfold initConfig at hok
    rw [parseArgs_cons_ok _ _ _ _ _ happ] at hok
    simp only [parseArgs] at hok
    injection hok with hh
    rw [← hh]
  · intro hok
    have happ : applyFlag (setFlagsFromEnv env initialConfig) .apiKey v
        = ({ setFlagsFromEnv env initialConfig with apiKey := v }, none) := rfl
    unfold initConfig at hok
    rw [parseArgs_cons_ok _ _ _ _ _ happ] at hok
    simp only [parseArgs] at hok
    injection hok with hh
    rw [← hh]
  · intro hok
    unfold initConfig at hok
    cases hpb : parseBool v with
    | none =>
      have happ : (applyFlag (setFlagsFromEnv env initialConfig) .secure v).2
          = some (.invalidBool v) := by
        simp [applyFlag, hpb]
      rw [parseArgs_cons_err _ _ _ _ _ happ] at hok
      cases hok
    | some bv =>
      have happ : applyFlag (setFlagsFromEnv env initialConfig) .secure v
          = ({ setFlagsFromEnv env initialConfig with secure := bv }, none) := by
        simp [applyFlag, hpb]
      rw [parseArgs_cons_ok _ _ _ _ _ happ] at hok
      simp only [parseArgs] at hok
      injection hok with hh
      rw [← hh]
  · intro henv hok
    rw [hok_nil st hok, setFlagsFromEnv_eq env]
    simp only
    rw [getEnvOrDefault_of_set env _ _ henv]
  · intro henv hok
    rw [hok_nil st hok, setFlagsFromEnv_eq env]
    simp only
    rw [getEnvOrDefault_of_unset env _ _ henv]
    decide
  · intro hok
    rw [hok_nil st hok, setFlagsFromEnv_eq env]
  · intro hok
    rw [hok_nil st hok, setFlagsFromEnv_eq env]
  · intro hok
    rw [hok_nil st hok, setFlagsFromEnv_eq env]

/-- C2 witness: with only the environment variable set and no server flag,
    the resolved endpoint equals the environment value. -/
theorem config_precedence_witness :
    ({ serverURL := some "http://envhost:8200", secretToken := "", apiKey := "",
       secure := false, eventRate := { Burst := 0, Interval := 0 },
       headers := [] } : GoConfig).serverURL = some "http://envhost:8200" :=
  (config_precedence_amended serverEnv "x" _).2.2.2.2.1 (by decide) rfl

/-- C9, counterexample to the claim as stated: with the TLS-verification
    environment variable set to a value that fails boolean validation,
    initialization does not abort — setFlagsFromEnv discards the flag.Set
    error and the field silently keeps its prior value false. -/
theorem env_seed_error_cex :
    parseBool "notabool" = none
    ∧ initConfig badBoolEnv []
        = .ok { serverURL := some "http://127.0.0.1:8200", secretToken := "", apiKey := "",
                secure := false, eventRate := { Burst := 0, Interval := 0 },
                headers := [] } :=
  ⟨by decide, rfl⟩

/-- C9 (amended): a command-line flag value that fails validation aborts
    initialization with the validation error, but a value pre-seeded from an
    environment variable that fails validation is silently ignored —
    environment-only initialization always succeeds, and an invalid boolean
    in the TLS-verification variable leaves secure at its prior value
    false. -/
theorem env_seed_error_amended (env : EnvMap) (st : GoConfig) (n : FlagName) (v : String)
    (rest : List (FlagName × String)) (e : ConfigErr) :
    ((applyFlag st n v).2 = some e → parseArgs st ((n, v) :: rest) = .error e)
    ∧ initConfig env [] = .ok (setFlagsFromEnv env initialConfig)
    ∧ (env "ELASTIC_APM_VERIFY_SERVER_CERT" ≠ "" →
        parseBool (env "ELASTIC_APM_VERIFY_SERVER_CERT") = none →
        (setFlagsFromEnv env initialConfig).secure = false) := by
  refine ⟨fun h => parseArgs_cons_err st n v rest e h, rfl, fun hne hpb => ?_⟩
  rw [setFlagsFromEnv_eq env]
  simp only
  rw [getEnvOrDefault_of_set env _ _ hne, hpb]
  rfl

/-- C9 witness: the invalid boolean environment value "notabool" is ignored
    and secure stays false. -/
theorem env_seed_error_witness :
    (setFlagsFromEnv badBoolEnv initialConfig).secure = false :=
  (env_seed_error_amended badBoolEnv initialConfig .server "" []
    (ConfigErr.invalidBool "x")).2.2 (by decide) (by decide)

end LoadgenCfg
